import Mathlib

/-!
Verification of the visible-watermark engine of `src/services/image_processor.py`
(class `ImageProcessor`).  The pixel-level primitives of the imaging library
(text rasterisation, rotation, paste, alpha compositing) are external
collaborators; they are modelled as explicit parameters or as the standard
operators the spec assigns them, while every piece of repository logic
(colour parsing, alpha conversion, mode selection, anchor placement, grid
derivation, the rotation pipeline's arithmetic, tile filtering) is embedded
faithfully from the source.
-/

namespace Watermark

/-- One RGBA pixel.  Channels are integers: the repository's own arithmetic
(for example a hex slice parsed with an explicit sign, or an unclamped alpha)
can leave the 0..255 range, and the model must carry that faithfully. -/
structure Pixel where
  r : ℤ
  g : ℤ
  b : ℤ
  a : ℤ
deriving DecidableEq

/-- An image buffer, as a total function from coordinates to pixels.  Canvases
are conceptually `width × height`; reads relevant to the theorems stay inside
those bounds. -/
abbrev Grid := ℤ → ℤ → Pixel

/-- The fully transparent pixel `(0, 0, 0, 0)`. -/
def Pixel.transparent : Pixel := ⟨0, 0, 0, 0⟩

/-- Forget the alpha channel, as `Image.convert('RGB')` does (line 101). -/
def rgbOf (p : Pixel) : ℤ × ℤ × ℤ := (p.r, p.g, p.b)

/-- Model of `ImageDraw.text` (an external collaborator): the glyph coverage
`cov` of the rendered string, anchored at the origin, is overwritten with the
fill colour at offset `(x, y)`; uncovered pixels are untouched. -/
def drawText (layer : Grid) (cov : ℤ → ℤ → Bool) (x y : ℤ) (c : Pixel) : Grid :=
  fun i j => if cov (i - x) (j - y) then c else layer i j

/-- Blend used by a masked paste for intermediate mask values `m ∈ (0, 255)`:
each channel is `dst*(255-m)/255 + src*m/255`. -/
def blendPixel (d s : Pixel) : Pixel :=
  ⟨(d.r * (255 - s.a) + s.r * s.a).fdiv 255,
   (d.g * (255 - s.a) + s.g * s.a).fdiv 255,
   (d.b * (255 - s.a) + s.b * s.a).fdiv 255,
   (d.a * (255 - s.a) + s.a * s.a).fdiv 255⟩

/-- Model of `Image.paste(img, (px, py), mask=img)` with an RGBA mask (an
external collaborator): inside the pasted `size × size` region, a mask alpha
of 0 keeps the destination, 255 copies the source, and intermediate values
blend. -/
def pasteMasked (dst pasted : Grid) (px py : ℤ) (size : ℕ) : Grid :=
  fun i j =>
    if px ≤ i ∧ i < px + size ∧ py ≤ j ∧ j < py + size then
      if (pasted (i - px) (j - py)).a = 0 then dst i j
      else if (pasted (i - px) (j - py)).a = 255 then pasted (i - px) (j - py)
      else blendPixel (dst i j) (pasted (i - px) (j - py))
    else dst i j

/-- Model of the external compositor `Image.alpha_composite(image, layer)`
as the standard "over" operator the spec assigns to the LayerCompositor:
each colour channel is `bot*(255 - a) / 255 + top*a / 255` where `a` is the
top layer's alpha, and the result alpha is `a + botA*(255 - a)/255`. -/
def compositePixel (bot top : Pixel) : Pixel :=
  ⟨(bot.r * (255 - top.a) + top.r * top.a).fdiv 255,
   (bot.g * (255 - top.a) + top.g * top.a).fdiv 255,
   (bot.b * (255 - top.a) + top.b * top.a).fdiv 255,
   top.a + (bot.a * (255 - top.a)).fdiv 255⟩

/-- Pointwise alpha compositing of a top layer over a bottom canvas. -/
def alphaComposite (bot top : Grid) : Grid :=
  fun i j => compositePixel (bot i j) (top i j)

/-- The external rendering collaborators one watermarking call depends on:
the glyph coverage and tight bounding box of the watermark text under the
resolved font (`draw.textbbox`, lines 54-56), and the imaging library's
rotation primitive `Image.rotate(θ, expand=False, center=ctr)`. -/
structure RenderEnv where
  cov : ℤ → ℤ → Bool
  textW : ℕ
  textH : ℕ
  rot : ℤ → ℤ × ℤ → Grid → Grid

/-- Soundness of a rotation primitive: every output pixel is either filler
(fully transparent) or a pixel of the input buffer.  Any real resampling
rotation satisfies this. -/
def RotSound (env : RenderEnv) : Prop :=
  ∀ θ ctr g i j, env.rot θ ctr g i j = Pixel.transparent ∨ ∃ k l, env.rot θ ctr g i j = g k l

/-- Value of one hexadecimal digit, upper or lower case (code points 48-57 are
`0`-`9`, 97-102 are `a`-`f`, 65-70 are `A`-`F`). -/
def hexVal (c : Char) : Option ℕ :=
  if 48 ≤ c.toNat ∧ c.toNat ≤ 57 then some (c.toNat - 48)
  else if 97 ≤ c.toNat ∧ c.toNat ≤ 102 then some (c.toNat - 87)
  else if 65 ≤ c.toNat ∧ c.toNat ≤ 70 then some (c.toNat - 55)
  else none

/-- One step of accumulating a hex-digit string's value. -/
def hexFoldStep (acc : Option ℕ) (c : Char) : Option ℕ :=
  match acc, hexVal c with
  | some a, some v => some (16 * a + v)
  | _, _ => none

/-- Value of a non-empty all-hex-digit string; `none` on an empty list or any
non-digit. -/
def hexDigitsVal : List Char → Option ℕ
  | [] => none
  | cs@(_ :: _) => cs.foldl hexFoldStep (some 0)

/-- The signed-digits part of Python `int(·, 16)`: an optional single sign,
then at least one hexadecimal digit. -/
def pySignedHex : List Char → Option ℤ
  | [] => none
  | c :: rest =>
    if c = '+' then (hexDigitsVal rest).map (fun n => (n : ℤ))
    else if c = '-' then (hexDigitsVal rest).map (fun n => -(n : ℤ))
    else (hexDigitsVal (c :: rest)).map (fun n => (n : ℤ))

/-- Model of Python `int(s, 16)` on the at-most-two-character slices
`_hex_to_rgb` produces: optional surrounding whitespace, an optional single
sign, then at least one hexadecimal digit.  (Underscore digit separators need
three or more characters and so cannot occur in these slices.) -/
def pyIntHex (s : String) : Option ℤ :=
  pySignedHex
    (((s.toList.dropWhile Char.isWhitespace).reverse.dropWhile Char.isWhitespace).reverse)

/-- Embedding of `_hex_to_rgb` (lines 191-196): strip leading `#` characters
(`lstrip('#')`), double each character of a 3-character string, then parse the
three 2-character slices `[0:2]`, `[2:4]`, `[4:6]` with `int(·, 16)`.  A slice
that fails to parse raises `ValueError`. -/
def _hex_to_rgb (hex_color : String) : Except String (ℤ × ℤ × ℤ) :=
  let cs := hex_color.toList.dropWhile (fun c => decide (c = '#'))
  let cs := if cs.length = 3 then cs.flatMap (fun c => [c, c]) else cs
  match pyIntHex (String.mk ((cs.drop 0).take 2)),
        pyIntHex (String.mk ((cs.drop 2).take 2)),
        pyIntHex (String.mk ((cs.drop 4).take 2)) with
  | some r, some g, some b => Except.ok (r, g, b)
  | _, _, _ => Except.error "ValueError"

/-- Embedding of `alpha = int(255 * opacity / 100)` (line 64): Python `int`
truncates the exact float quotient toward zero, which is `Int.tdiv`; the code
applies no clamping of any kind. -/
def alphaOf (opacity : ℤ) : ℤ := (255 * opacity).tdiv 100

/-- Embedding of `margin = int(math.sqrt(text_width**2 + text_height**2)) + 50`
(line 112): `int ∘ math.sqrt` on a nonnegative integer is the integer (floor)
square root, `Nat.sqrt`. -/
def margin (tw th : ℕ) : ℕ := Nat.sqrt (tw ^ 2 + th ^ 2) + 50

/-- Embedding of `temp_size = max(text_width, text_height) + margin * 2`
(line 113). -/
def tempSize (tw th : ℕ) : ℕ := max tw th + margin tw th * 2

/-- Embedding of `_draw_watermark_text` (lines 104-134).  For angle 0 the text
is drawn directly onto the layer; otherwise it is drawn centred inside a
square transparent temp buffer of side `temp_size`, the buffer is rotated by
`-angle` about its centre without expansion, and the result is pasted (with
its own alpha as mask) so the rotated text's centre lands on the unrotated
stamp's centre.  All `//` divisions of the source are `Int.fdiv`. -/
def drawWatermarkText (env : RenderEnv) (layer : Grid) (x y : ℤ) (color : Pixel)
    (angle : ℤ) (tw th : ℕ) : Grid :=
  if angle = 0 then
    drawText layer env.cov x y color
  else
    let ts := tempSize tw th
    let temp := drawText (fun _ _ => Pixel.transparent) env.cov
      (((ts : ℤ) - (tw : ℤ)).fdiv 2) (((ts : ℤ) - (th : ℤ)).fdiv 2) color
    let rotated := env.rot (-angle) ((ts : ℤ).fdiv 2, (ts : ℤ).fdiv 2) temp
    let cx := x + (tw : ℤ).fdiv 2
    let cy := y + (th : ℤ).fdiv 2
    pasteMasked layer rotated (cx - (ts : ℤ).fdiv 2) (cy - (ts : ℤ).fdiv 2) ts

/-- Embedding of the mode test
`position in ['topleft', 'topright', 'center', 'bottomleft', 'bottomright']`
(line 68): the five anchor names select single mode, every other string falls
through to the grid branch. -/
def singleAnchorMode (position : String) : Bool :=
  decide (position ∈ ["topleft", "topright", "center", "bottomleft", "bottomright"])

/-- Embedding of the `positions` dictionary of `_calculate_position`
(lines 181-187), with the `padding = 20` constant inlined. -/
def positionsTable (imgW imgH : ℤ) (tw th : ℕ) : List (String × (ℤ × ℤ)) :=
  [("topleft", ((20 : ℤ), (20 : ℤ))),
   ("topright", (imgW - (tw : ℤ) - 20, (20 : ℤ))),
   ("center", ((imgW - (tw : ℤ)).fdiv 2, (imgH - (th : ℤ)).fdiv 2)),
   ("bottomleft", ((20 : ℤ), imgH - (th : ℤ) - 20)),
   ("bottomright", (imgW - (tw : ℤ) - 20, imgH - (th : ℤ) - 20))]

/-- Embedding of `_calculate_position` (lines 176-189):
`positions.get(position, positions['bottomright'])`. -/
def _calculate_position (position : String) (imgW imgH : ℤ) (tw th : ℕ) : ℤ × ℤ :=
  ((positionsTable imgW imgH tw th).lookup position).getD
    (imgW - (tw : ℤ) - 20, imgH - (th : ℤ) - 20)

/-- Embedding of `wm_width = watermark_width if watermark_width else text_width`
(lines 59-60): Python truthiness, so both `None` and `0` fall back to the
measured text size. -/
def resolveTileSize (override : Option ℤ) (measured : ℕ) : ℤ :=
  match override with
  | none => (measured : ℤ)
  | some w => if w = 0 then (measured : ℤ) else w

/-- Embedding of the auto-derivation
`max(1, int(available / (size + space)))` guarded by `explicit == 0`
(lines 82-85).  Python raises `ZeroDivisionError` when the divisor is 0, and
`int` of the float quotient truncates toward zero (`Int.tdiv`). -/
def autoCountE (explicit : ℤ) (available denom : ℤ) : Except String ℤ :=
  if explicit = 0 then
    if denom = 0 then Except.error "ZeroDivisionError"
    else Except.ok (max 1 (available.tdiv denom))
  else Except.ok explicit

/-- Top-left x of the tile in column `c`:
`x = watermark_x + col * (wm_width + watermark_x_space)` (line 90). -/
def tileX (wx wmW wxs : ℤ) (c : ℕ) : ℤ := wx + (c : ℤ) * (wmW + wxs)

/-- Top-left y of the tile in row `r`:
`y = watermark_y + row * (wm_height + watermark_y_space)` (line 91). -/
def tileY (wy wmH wys : ℤ) (r : ℕ) : ℤ := wy + (r : ℤ) * (wmH + wys)

/-- The per-tile bounds test
`x + wm_width <= img_width and y + wm_height <= img_height` (line 94). -/
def tileFits (imgW imgH wx wy wmW wmH wxs wys : ℤ) (r c : ℕ) : Bool :=
  decide (tileX wx wmW wxs c + wmW ≤ imgW) && decide (tileY wy wmH wys r + wmH ≤ imgH)

/-- Row-major enumeration of the nested loops
`for row in range(rows): for col in range(cols):` (lines 88-89). -/
def gridCells (rows cols : ℕ) : List (ℕ × ℕ) :=
  (List.range rows).flatMap (fun r => (List.range cols).map (fun c => (r, c)))

/-- The grid cells whose tiles pass the bounds test and are therefore drawn. -/
def emittedTiles (imgW imgH wx wy wmW wmH wxs wys : ℤ) (rows cols : ℕ) : List (ℕ × ℕ) :=
  (gridCells rows cols).filter
    (fun rc => tileFits imgW imgH wx wy wmW wmH wxs wys rc.1 rc.2)

/-- The loop body of the grid branch for one cell: draw the stamp at the
tile's top-left, passing the measured text dimensions (line 95). -/
def drawTileStamp (env : RenderEnv) (wx wy wmW wmH wxs wys : ℤ) (color : Pixel)
    (angle : ℤ) (layer : Grid) (rc : ℕ × ℕ) : Grid :=
  drawWatermarkText env layer (tileX wx wmW wxs rc.2) (tileY wy wmH wys rc.1)
    color angle env.textW env.textH

/-- Embedding of the grid-drawing loops (lines 88-95): every cell is visited
in row-major order and drawn only if its tile passes the bounds test. -/
def drawGrid (env : RenderEnv) (layer : Grid) (imgW imgH wx wy wmW wmH wxs wys : ℤ)
    (rows cols : ℕ) (color : Pixel) (angle : ℤ) : Grid :=
  (gridCells rows cols).foldl
    (fun ly rc =>
      if tileFits imgW imgH wx wy wmW wmH wxs wys rc.1 rc.2 then
        drawTileStamp env wx wy wmW wmH wxs wys color angle ly rc
      else ly)
    layer

/-- Embedding of `add_visible_watermark` (lines 12-102).  Decoding the input
file and encoding the output are external; the decoded RGBA source canvas and
its size are given, and the flattened RGB result is returned.  The body
follows the source statement for statement: measure the text, resolve tile
size overrides by truthiness, parse the colour, build the text colour with
the unclamped alpha, branch on the five anchor names, auto-derive grid counts
when a count is 0 (cols first), draw all fitting tiles, alpha-composite the
layer over the source, and flatten to RGB. -/
def add_visible_watermark (env : RenderEnv) (src : Grid) (imgW imgH : ℤ)
    (position : String) (opacity : ℤ) (color : String)
    (watermark_x watermark_y watermark_rows watermark_cols : ℤ)
    (watermark_x_space watermark_y_space watermark_angle : ℤ)
    (watermark_width watermark_height : Option ℤ) :
    Except String (ℤ → ℤ → ℤ × ℤ × ℤ) := do
  let text_width := env.textW
  let text_height := env.textH
  let wm_width := resolveTileSize watermark_width text_width
  let wm_height := resolveTileSize watermark_height text_height
  let rgb ← _hex_to_rgb color
  let text_color : Pixel := ⟨rgb.1, rgb.2.1, rgb.2.2, alphaOf opacity⟩
  let layer0 : Grid := fun _ _ => Pixel.transparent
  let layer ←
    if singleAnchorMode position then
      let xy := _calculate_position position imgW imgH text_width text_height
      pure (drawWatermarkText env layer0 xy.1 xy.2 text_color watermark_angle
        text_width text_height)
    else do
      let cols ← autoCountE watermark_cols (imgW - watermark_x) (wm_width + watermark_x_space)
      let rows ← autoCountE watermark_rows (imgH - watermark_y) (wm_height + watermark_y_space)
      pure (drawGrid env layer0 imgW imgH watermark_x watermark_y wm_width wm_height
        watermark_x_space watermark_y_space rows.toNat cols.toNat text_color watermark_angle)
  let watermarked := alphaComposite src layer
  pure (fun i j => rgbOf (watermarked i j))

/-- Ceiling integer square root, used only to state the spec's version of the
rotation margin for comparison with the source's floor-based one. -/
def ceilSqrt (n : ℕ) : ℕ :=
  if Nat.sqrt n * Nat.sqrt n = n then Nat.sqrt n else Nat.sqrt n + 1

/-- Modelled from the spec: `margin = ceil(sqrt(textW² + textH²)) + 50`, the
formula claim C5 asserts for the rotation compositor's safety margin. -/
def specMargin (tw th : ℕ) : ℕ := ceilSqrt (tw ^ 2 + th ^ 2) + 50

/-- C1 counterexample: the code computes the alpha byte by truncation and
never clamps, so opacity 50 yields 127 where the claim requires
round(127.5) = 128, and opacity 150 yields 382 where the claim requires the
clamped value 255. -/
theorem C1_counterexample :
    alphaOf 50 = 127 ∧ alphaOf 50 ≠ 128 ∧ alphaOf 150 = 382 ∧ alphaOf 150 ≠ 255 := by
  decide

/-- C1 amended: the visible-watermark operation converts opacity to the text
alpha byte `a = trunc(255 × opacity / 100)` with no rounding and no clamping:
for nonnegative opacity this equals the floor of 255·opacity/100, it is
nonnegative, it stays at most 255 only when opacity ≤ 100, and every opacity
above 100 produces a value strictly above 255. -/
theorem C1_alpha_conversion (opacity : ℤ) (h : 0 ≤ opacity) :
    alphaOf opacity = (255 * opacity).fdiv 100 ∧
    0 ≤ alphaOf opacity ∧
    (opacity ≤ 100 → alphaOf opacity ≤ 255) ∧
    (100 < opacity → 255 < alphaOf opacity) := by
  have hnum : (0 : ℤ) ≤ 255 * opacity := by positivity
  have htd : alphaOf opacity = (255 * opacity) / 100 :=
    Int.tdiv_eq_ediv hnum (by norm_num)
  have hfd : ((255 : ℤ) * opacity).fdiv 100 = (255 * opacity) / 100 :=
    Int.fdiv_eq_ediv _ (by norm_num)
  refine ⟨by rw [htd, hfd], ?_, ?_, ?_⟩ <;> rw [htd] <;> omega

/-- C1 witness: the amended conversion instantiated at opacity 50. -/
theorem C1_alpha_conversion_witness :
    alphaOf 50 = ((255 * 50 : ℤ)).fdiv 100 ∧
    0 ≤ alphaOf 50 ∧
    ((50 : ℤ) ≤ 100 → alphaOf 50 ≤ 255) ∧
    ((100 : ℤ) < 50 → 255 < alphaOf 50) :=
  C1_alpha_conversion 50 (by decide)

/-- A concrete rendering environment for instantiating witnesses: empty glyph
coverage, a 10 × 4 text box, and the identity rotation primitive. -/
def trivialEnv : RenderEnv :=
  ⟨fun _ _ => false, 10, 4, fun _ _ g => g⟩

/-- Folding `if p x then f acc x else acc` over a list visits exactly the
elements that pass the filter. -/
theorem foldl_filter_eq {α β : Type} (p : α → Bool) (f : β → α → β) :
    ∀ (l : List α) (init : β),
      (l.filter p).foldl f init
        = l.foldl (fun acc x => if p x then f acc x else acc) init
  | [], _ => rfl
  | x :: xs, init => by
    by_cases h : p x <;>
      simp [List.filter_cons, h, foldl_filter_eq p f xs]

/-- C3: in grid mode a candidate tile is rendered into the layer if and only
if `x + tileW ≤ canvasW` and `y + tileH ≤ canvasH`: the drawing loop equals a
fold over exactly the tiles passing that test, membership in the emitted set
is equivalent to the test, and — under the data model's constraints
(nonnegative origin and spacing, positive tile size) — every emitted tile's
full bounding box lies within canvas bounds, so no partially clipped stamp is
drawn. -/
theorem C3_tile_policy (env : RenderEnv) (layer : Grid)
    (imgW imgH wx wy wmW wmH wxs wys : ℤ) (rows cols : ℕ)
    (color : Pixel) (angle : ℤ) :
    drawGrid env layer imgW imgH wx wy wmW wmH wxs wys rows cols color angle
      = (emittedTiles imgW imgH wx wy wmW wmH wxs wys rows cols).foldl
          (drawTileStamp env wx wy wmW wmH wxs wys color angle) layer ∧
    (∀ r c : ℕ, (r, c) ∈ gridCells rows cols →
      ((r, c) ∈ emittedTiles imgW imgH wx wy wmW wmH wxs wys rows cols ↔
        (tileX wx wmW wxs c + wmW ≤ imgW ∧ tileY wy wmH wys r + wmH ≤ imgH))) ∧
    (0 ≤ wx → 0 ≤ wy → 0 ≤ wxs → 0 ≤ wys → 0 < wmW → 0 < wmH →
      ∀ rc ∈ emittedTiles imgW imgH wx wy wmW wmH wxs wys rows cols,
        0 ≤ tileX wx wmW wxs rc.2 ∧ tileX wx wmW wxs rc.2 + wmW ≤ imgW ∧
        0 ≤ tileY wy wmH wys rc.1 ∧ tileY wy wmH wys rc.1 + wmH ≤ imgH) := by
  refine ⟨(foldl_filter_eq _ _ _ _).symm, ?_, ?_⟩
  · intro r c hmem
    simp only [emittedTiles, List.mem_filter, tileFits, Bool.and_eq_true,
      decide_eq_true_eq]
    constructor
    · rintro ⟨_, hf⟩
      exact hf
    · intro hf
      exact ⟨hmem, hf⟩
  · intro hwx hwy hwxs hwys hwmW hwmH rc hrc
    have hfit : tileFits imgW imgH wx wy wmW wmH wxs wys rc.1 rc.2 = true :=
      (List.mem_filter.mp hrc).2
    simp only [tileFits, Bool.and_eq_true, decide_eq_true_eq] at hfit
    have hx0 : 0 ≤ tileX wx wmW wxs rc.2 := by
      have : (0 : ℤ) ≤ (rc.2 : ℤ) * (wmW + wxs) :=
        mul_nonneg (Int.natCast_nonneg _) (by linarith)
      simp only [tileX]; linarith
    have hy0 : 0 ≤ tileY wy wmH wys rc.1 := by
      have : (0 : ℤ) ≤ (rc.1 : ℤ) * (wmH + wys) :=
        mul_nonneg (Int.natCast_nonneg _) (by linarith)
      simp only [tileY]; linarith
    exact ⟨hx0, hfit.1, hy0, hfit.2⟩

/-- C3 witness: the emission criterion instantiated for the (0, 0) cell of a
1 × 1 grid on a 100 × 100 canvas with a 10 × 10 tile. -/
theorem C3_tile_policy_witness :
    (0, 0) ∈ emittedTiles 100 100 0 0 (10 : ℤ) 10 0 0 1 1 ↔
      (tileX 0 10 0 0 + 10 ≤ 100 ∧ tileY 0 10 0 0 + 10 ≤ 100) :=
  (C3_tile_policy trivialEnv (fun _ _ => Pixel.transparent)
    100 100 0 0 10 10 0 0 1 1 Pixel.transparent 0).2.1 0 0 (by decide)

/-- C4: when an explicit count is 0 the grid auto-derivation computes
`max(1, floor(available / (tile + spacing)))` (for a positive divisor the
source's truncating division agrees with the claimed floor under `max 1`),
tile top-lefts follow `origin + index * (tile + spacing)`, and the concrete
500 × 500 scenario with origin (20, 20), tile 100 × 40, spacing (50, 50)
derives cols = 3, rows = 5 and emits exactly 15 tiles, all within bounds. -/
theorem C4_auto_grid (available denom : ℤ) (h : 0 < denom) :
    autoCountE 0 available denom = Except.ok (max 1 (available.fdiv denom)) ∧
    (∀ wx wmW wxs : ℤ, ∀ c : ℕ, tileX wx wmW wxs c = wx + (c : ℤ) * (wmW + wxs)) ∧
    (∀ wy wmH wys : ℤ, ∀ r : ℕ, tileY wy wmH wys r = wy + (r : ℤ) * (wmH + wys)) ∧
    autoCountE 0 (500 - 20) ((100 : ℤ) + 50) = Except.ok 3 ∧
    autoCountE 0 (500 - 20) ((40 : ℤ) + 50) = Except.ok 5 ∧
    (emittedTiles 500 500 20 20 100 40 50 50 5 3).length = 15 ∧
    (∀ rc ∈ emittedTiles 500 500 20 20 (100 : ℤ) 40 50 50 5 3,
      tileFits 500 500 20 20 100 40 50 50 rc.1 rc.2 = true) := by
  have hne : denom ≠ 0 := ne_of_gt h
  refine ⟨?_, fun _ _ _ _ => rfl, fun _ _ _ _ => rfl,
    rfl, rfl, by decide, by decide⟩
  unfold autoCountE
  rw [if_pos rfl, if_neg hne]
  congr 1
  rcases le_or_lt 0 available with ha | ha
  · rw [Int.fdiv_eq_tdiv ha (le_of_lt h)]
  · have h1 : available.tdiv denom ≤ 0 := by
      have hn := Int.tdiv_nonneg (by linarith : (0 : ℤ) ≤ -available) (le_of_lt h)
      rw [Int.neg_tdiv] at hn
      omega
    have h2 : available.fdiv denom ≤ 0 := by
      rw [Int.fdiv_eq_ediv _ (le_of_lt h)]
      exact le_of_lt (Int.ediv_neg' ha h)
    rw [max_eq_left (by omega), max_eq_left (by omega)]

/-- C4 witness: auto-derivation at the concrete divisor 150 of the scenario. -/
theorem C4_auto_grid_witness :
    autoCountE 0 (500 - 20) ((100 : ℤ) + 50)
      = Except.ok (max 1 ((500 - 20 : ℤ).fdiv (100 + 50))) :=
  (C4_auto_grid (500 - 20) (100 + 50) (by decide)).1

/-- C10: the five anchor names and only they select single-anchor mode — every
other position string, including "grid", "single" and the empty string, falls
to the repeating-grid branch — and for each of the five names the position
table lookup succeeds, so the bottom-right fallback of
`positions.get(position, positions['bottomright'])` is unreachable from
`add_visible_watermark`. -/
theorem C10_mode_selection (p : String) (imgW imgH : ℤ) (tw th : ℕ) :
    (singleAnchorMode p = true ↔
      (p = "topleft" ∨ p = "topright" ∨ p = "center" ∨
        p = "bottomleft" ∨ p = "bottomright")) ∧
    (singleAnchorMode p = true →
      ∃ v, (positionsTable imgW imgH tw th).lookup p = some v ∧
        _calculate_position p imgW imgH tw th = v) ∧
    singleAnchorMode "grid" = false ∧
    singleAnchorMode "single" = false ∧
    singleAnchorMode "" = false := by
  have hmem : singleAnchorMode p = true ↔
      (p = "topleft" ∨ p = "topright" ∨ p = "center" ∨
        p = "bottomleft" ∨ p = "bottomright") := by
    simp [singleAnchorMode]
  refine ⟨hmem, ?_, rfl, rfl, rfl⟩
  intro h
  rcases hmem.mp h with h | h | h | h | h <;> subst h <;> exact ⟨_, rfl, rfl⟩

/-- C10 witness: "grid" selects grid mode, and the "topleft" lookup succeeds
without touching the fallback. -/
theorem C10_mode_selection_witness :
    singleAnchorMode "grid" = false ∧
    ∃ v, (positionsTable 100 100 10 10).lookup "topleft" = some v ∧
      _calculate_position "topleft" 100 100 10 10 = v :=
  ⟨(C10_mode_selection "grid" 100 100 10 10).2.2.1,
   (C10_mode_selection "topleft" 100 100 10 10).2.1 (by decide)⟩

/-- Every hexadecimal digit has code point at least 48. -/
theorem hexVal_isSome_code {c : Char} (h : (hexVal c).isSome) : 48 ≤ c.toNat := by
  unfold hexVal at h
  repeat' split at h
  all_goals first | omega | simp at h

/-- A whitespace character's code point is 32, 9, 13 or 10. -/
theorem ws_code {c : Char} (h : c.isWhitespace = true) :
    c.toNat = 32 ∨ c.toNat = 9 ∨ c.toNat = 13 ∨ c.toNat = 10 := by
  unfold Char.isWhitespace at h
  simp only [Bool.or_eq_true, decide_eq_true_eq] at h
  rcases h with ((h1 | h1) | h1) | h1 <;> subst h1 <;> decide

/-- Hexadecimal digits are not whitespace. -/
theorem hexVal_not_ws {c : Char} (h : (hexVal c).isSome) : c.isWhitespace = false := by
  have h48 := hexVal_isSome_code h
  cases hw : c.isWhitespace
  · rfl
  · have := ws_code hw
    omega

/-- A hexadecimal digit is not the sign character `+`. -/
theorem hexVal_ne_plus {c : Char} (h : (hexVal c).isSome) : ¬ c = '+' := by
  intro he
  have h48 := hexVal_isSome_code h
  subst he
  exact absurd h48 (by decide)

/-- A hexadecimal digit is not the sign character `-`. -/
theorem hexVal_ne_minus {c : Char} (h : (hexVal c).isSome) : ¬ c = '-' := by
  intro he
  have h48 := hexVal_isSome_code h
  subst he
  exact absurd h48 (by decide)

/-- dropWhile is the identity when no element satisfies the predicate. -/
theorem dropWhile_eq_self_of_forall {α : Type} (p : α → Bool) :
    ∀ l : List α, (∀ c ∈ l, p c = false) → l.dropWhile p = l
  | [], _ => rfl
  | c :: rest, h => by
    have hc : p c = false := h c (List.mem_cons_self c rest)
    simp [List.dropWhile_cons, hc]

/-- Folding digit accumulation over hex digits never fails. -/
theorem hexFold_isSome :
    ∀ (cs : List Char) (a : ℕ), (∀ c ∈ cs, (hexVal c).isSome) →
      (cs.foldl hexFoldStep (some a)).isSome
  | [], _, _ => rfl
  | c :: rest, a, h => by
    have hc := h c (List.mem_cons_self c rest)
    rcases Option.isSome_iff_exists.mp hc with ⟨v, hv⟩
    have hstep : hexFoldStep (some a) c = some (16 * a + v) := by
      unfold hexFoldStep
      rw [hv]
    simp only [List.foldl_cons, hstep]
    exact hexFold_isSome rest (16 * a + v) (fun x hx => h x (List.mem_cons_of_mem c hx))

/-- A non-empty list of hex digits has a value. -/
theorem hexDigitsVal_isSome {cs : List Char} (hne : cs ≠ [])
    (h : ∀ c ∈ cs, (hexVal c).isSome) : (hexDigitsVal cs).isSome := by
  cases cs with
  | nil => exact absurd rfl hne
  | cons c rest => exact hexFold_isSome (c :: rest) 0 h

/-- Python `int(·, 16)` succeeds on every non-empty string of hex digits. -/
theorem pyIntHex_isSome_of_hex {cs : List Char} (hne : cs ≠ [])
    (h : ∀ c ∈ cs, (hexVal c).isSome) : (pyIntHex (String.mk cs)).isSome := by
  have hws : ∀ c ∈ cs, c.isWhitespace = false := fun c hc => hexVal_not_ws (h c hc)
  have hd1 : cs.dropWhile Char.isWhitespace = cs :=
    dropWhile_eq_self_of_forall _ cs hws
  have hd2 : cs.reverse.dropWhile Char.isWhitespace = cs.reverse :=
    dropWhile_eq_self_of_forall _ _ (fun c hc => hws c (List.mem_reverse.mp hc))
  have htrim : (((String.mk cs).toList.dropWhile Char.isWhitespace).reverse.dropWhile
      Char.isWhitespace).reverse = cs := by
    show ((cs.dropWhile Char.isWhitespace).reverse.dropWhile Char.isWhitespace).reverse = cs
    rw [hd1, hd2, List.reverse_reverse]
  unfold pyIntHex
  rw [htrim]
  cases cs with
  | nil => exact absurd rfl hne
  | cons c rest =>
    have hc := h c (List.mem_cons_self c rest)
    simp only [pySignedHex, if_neg (hexVal_ne_plus hc), if_neg (hexVal_ne_minus hc)]
    rcases Option.isSome_iff_exists.mp (hexDigitsVal_isSome hne h) with ⟨v, hv⟩
    rw [hv]
    rfl

/-- An element of the 2-slice at offset `k ≤ 4` lies in the first six
characters. -/
theorem mem_take_six_of_slice {cs : List Char} {c : Char} (k : ℕ) (hk : k + 2 ≤ 6)
    (hc : c ∈ (cs.drop k).take 2) : c ∈ cs.take 6 := by
  rw [List.take_drop] at hc
  have h2 : cs.take (k + 2) = (cs.take 6).take (k + 2) := by
    rw [List.take_take]
    congr 1
    omega
  rw [h2] at hc
  exact List.mem_of_mem_take (List.mem_of_mem_drop hc)

/-- The 2-slice at an offset strictly inside the list is non-empty. -/
theorem slice_ne_nil {cs : List Char} {k : ℕ} (hk : k < cs.length) :
    (cs.drop k).take 2 ≠ [] := by
  have hlen : ((cs.drop k).take 2).length = min 2 (cs.length - k) := by
    simp [List.length_take, List.length_drop]
  intro hnil
  rw [hnil] at hlen
  simp only [List.length_nil] at hlen
  omega

/-- C7 counterexample: "abcde" is malformed per the claim — after stripping it
has length 5, neither 3 nor 6 — yet colour resolution succeeds, parsing the
slices "ab", "cd", "e" to (171, 205, 14) instead of failing with any error. -/
theorem C7_counterexample :
    _hex_to_rgb "abcde" = Except.ok (171, 205, 14) ∧
    ("abcde".toList.dropWhile (fun c => decide (c = '#'))).length = 5 := by
  constructor
  · rfl
  · rfl

/-- C7 amended: malformed hex is not uniformly rejected.  A string (without
leading `#`) of length at most 4 and not exactly 3 always fails, because one
of the three 2-character slices is empty — and this failure is Python's
untyped ValueError, not a dedicated InvalidColor error.  But a wrong-length
string of length 5 or of length 7 and more whose first six characters are hex
digits resolves successfully, the extra characters silently ignored. -/
theorem C7_hex_resolution (cs : List Char)
    (hnohash : cs.dropWhile (fun c => decide (c = '#')) = cs) :
    (cs.length ≤ 4 → cs.length ≠ 3 →
      _hex_to_rgb (String.mk cs) = Except.error "ValueError") ∧
    (5 ≤ cs.length → (∀ c ∈ cs.take 6, (hexVal c).isSome) →
      ∃ v, _hex_to_rgb (String.mk cs) = Except.ok v) := by
  constructor
  · intro hlen hne3
    have hdrop : (cs.drop 4).take 2 = [] := by
      rw [List.drop_eq_nil_of_le hlen]
      rfl
    simp only [_hex_to_rgb]
    rw [show (String.mk cs).toList = cs from rfl, hnohash, if_neg hne3, hdrop]
    have h3 : pyIntHex (String.mk []) = none := rfl
    rw [h3]
    rcases h1 : pyIntHex (String.mk ((cs.drop 0).take 2)) with _ | a <;>
      rcases h2 : pyIntHex (String.mk ((cs.drop 2).take 2)) with _ | b <;>
        rfl
  · intro hlen hhex
    have hne3 : cs.length ≠ 3 := by omega
    have hs1 : ∀ c ∈ (cs.drop 0).take 2, (hexVal c).isSome :=
      fun c hc => hhex c (mem_take_six_of_slice 0 (by omega) hc)
    have hs2 : ∀ c ∈ (cs.drop 2).take 2, (hexVal c).isSome :=
      fun c hc => hhex c (mem_take_six_of_slice 2 (by omega) hc)
    have hs3 : ∀ c ∈ (cs.drop 4).take 2, (hexVal c).isSome :=
      fun c hc => hhex c (mem_take_six_of_slice 4 (by omega) hc)
    have hne1 : (cs.drop 0).take 2 ≠ [] := slice_ne_nil (by omega)
    have hne2 : (cs.drop 2).take 2 ≠ [] := slice_ne_nil (by omega)
    have hne4 : (cs.drop 4).take 2 ≠ [] := slice_ne_nil (by omega)
    rcases Option.isSome_iff_exists.mp (pyIntHex_isSome_of_hex hne1 hs1) with ⟨a, ha⟩
    rcases Option.isSome_iff_exists.mp (pyIntHex_isSome_of_hex hne2 hs2) with ⟨b, hb⟩
    rcases Option.isSome_iff_exists.mp (pyIntHex_isSome_of_hex hne4 hs3) with ⟨d, hd⟩
    refine ⟨(a, b, d), ?_⟩
    simp only [_hex_to_rgb]
    rw [show (String.mk cs).toList = cs from rfl, hnohash, if_neg hne3, ha, hb, hd]

/-- C7 witness: the amended characterisation instantiated on the 4-character
all-hex string "abcd", which fails, exactly as amended. -/
theorem C7_hex_resolution_witness :
    _hex_to_rgb (String.mk ['a', 'b', 'c', 'd']) = Except.error "ValueError" :=
  (C7_hex_resolution ['a', 'b', 'c', 'd'] (by decide)).1 (by decide) (by decide)

/-- C9: in single-anchor mode with padding 20, the stamp top-left is exactly
(20, 20) for top-left, (canvasW − stampW − 20, 20) for top-right, the
floor-divided centring for center, (20, canvasH − stampH − 20) for
bottom-left, and (canvasW − stampW − 20, canvasH − stampH − 20) for
bottom-right. -/
theorem C9_single_anchor_positions (imgW imgH : ℤ) (tw th : ℕ) :
    _calculate_position "topleft" imgW imgH tw th = (20, 20) ∧
    _calculate_position "topright" imgW imgH tw th = (imgW - (tw : ℤ) - 20, 20) ∧
    _calculate_position "center" imgW imgH tw th
      = ((imgW - (tw : ℤ)).fdiv 2, (imgH - (th : ℤ)).fdiv 2) ∧
    _calculate_position "bottomleft" imgW imgH tw th = (20, imgH - (th : ℤ) - 20) ∧
    _calculate_position "bottomright" imgW imgH tw th
      = (imgW - (tw : ℤ) - 20, imgH - (th : ℤ) - 20) :=
  ⟨rfl, rfl, rfl, rfl, rfl⟩

/-- C6: for rotation angle 0 the stamp renderer writes pixels identical to
direct unrotated rendering of the same text, font and colour at the same
position onto the layer; no temporary buffer, rotation or paste is involved. -/
theorem C6_zero_angle_direct (env : RenderEnv) (layer : Grid) (x y : ℤ)
    (color : Pixel) (tw th : ℕ) :
    drawWatermarkText env layer x y color 0 tw th
      = drawText layer env.cov x y color := by
  simp [drawWatermarkText]

/-- C5 counterexample: at text box (1, 1) the code's margin is
`int(sqrt(2)) + 50 = 51`, while the claimed `ceil(sqrt(2)) + 50` is 52 — the
source floors the square root instead of taking its ceiling. -/
theorem C5_counterexample :
    margin 1 1 = 51 ∧ specMargin 1 1 = 52 ∧ margin 1 1 ≠ specMargin 1 1 := by
  have hs : Nat.sqrt 2 = 1 := by
    have h1 : 1 ≤ Nat.sqrt 2 := Nat.le_sqrt.mpr (by norm_num)
    have h2 : Nat.sqrt 2 < 2 := by
      rw [Nat.sqrt_lt]
      norm_num
    omega
  have hpow : (1 : ℕ) ^ 2 + 1 ^ 2 = 2 := by norm_num
  refine ⟨?_, ?_, ?_⟩
  · unfold margin
    rw [hpow, hs]
  · unfold specMargin ceilSqrt
    rw [hpow, hs]
    norm_num
  · unfold margin specMargin ceilSqrt
    rw [hpow, hs]
    norm_num

/-- C5 amended: for every angle θ ≠ 0 the rotation compositor uses
margin = floor(sqrt(textW² + textH²)) + 50 (floor, not ceiling), allocates a
square transparent buffer of side tempSize = max(textW, textH) + 2·margin,
and renders the text at offset ((tempSize − textW)/2, (tempSize − textH)/2),
floor division. -/
theorem C5_rotation_buffer (env : RenderEnv) (layer : Grid) (x y : ℤ)
    (color : Pixel) (angle : ℤ) (tw th : ℕ) (h : angle ≠ 0) :
    margin tw th = Nat.sqrt (tw ^ 2 + th ^ 2) + 50 ∧
    tempSize tw th = max tw th + 2 * margin tw th ∧
    drawWatermarkText env layer x y color angle tw th =
      pasteMasked layer
        (env.rot (-angle)
          (((tempSize tw th : ℤ)).fdiv 2, ((tempSize tw th : ℤ)).fdiv 2)
          (drawText (fun _ _ => Pixel.transparent) env.cov
            (((tempSize tw th : ℤ) - (tw : ℤ)).fdiv 2)
            (((tempSize tw th : ℤ) - (th : ℤ)).fdiv 2) color))
        (x + (tw : ℤ).fdiv 2 - ((tempSize tw th : ℤ)).fdiv 2)
        (y + (th : ℤ).fdiv 2 - ((tempSize tw th : ℤ)).fdiv 2)
        (tempSize tw th) := by
  refine ⟨rfl, by unfold tempSize; omega, ?_⟩
  simp only [drawWatermarkText, if_neg h]

/-- C5 witness: the amended buffer formulas instantiated at text box (3, 4)
and angle 45. -/
theorem C5_rotation_buffer_witness :
    margin 3 4 = Nat.sqrt (3 ^ 2 + 4 ^ 2) + 50 ∧
    tempSize 3 4 = max 3 4 + 2 * margin 3 4 :=
  ⟨(C5_rotation_buffer trivialEnv (fun _ _ => Pixel.transparent) 0 0
      Pixel.transparent 45 3 4 (by decide)).1,
   (C5_rotation_buffer trivialEnv (fun _ _ => Pixel.transparent) 0 0
      Pixel.transparent 45 3 4 (by decide)).2.1⟩

/-- Binding a successful Except result applies the continuation. -/
theorem except_bind_ok {ε α β : Type} (a : α) (f : α → Except ε β) :
    (Except.ok a >>= f) = f a := rfl

/-- Binding a failed Except result keeps the error. -/
theorem except_bind_error {ε α β : Type} (e : ε) (f : α → Except ε β) :
    ((Except.error e : Except ε α) >>= f) = Except.error e := rfl

/-- pure on Except is ok. -/
theorem except_pure_eq {ε α : Type} (a : α) : (pure a : Except ε α) = Except.ok a := rfl

/-- C2 counterexample: a layout with negative origin (-3, -3), negative
spacing (-5, -5) and negative explicit tile size (-10 × -10) is accepted:
`add_visible_watermark` completes successfully instead of failing with an
InvalidLayout error before drawing. -/
theorem C2_counterexample :
    ((add_visible_watermark trivialEnv (fun _ _ => Pixel.transparent) 100 100
      "grid" 50 "ff0000" (-3) (-3) 1 1 (-5) (-5) 0
      (some (-10)) (some (-10))).toOption).isSome = true := by
  rfl

/-- C2 amended: the operation performs no layout validation: for every layout
— including negative spacing, negative origin and non-positive explicit tile
sizes — it completes successfully, provided only that the colour parses and
the grid auto-derivation divisors are nonzero (the only failure modes that
exist are the colour ValueError and the auto-derivation ZeroDivisionError;
there is no InvalidLayout error anywhere). -/
theorem C2_no_layout_validation (env : RenderEnv) (src : Grid) (imgW imgH : ℤ)
    (position : String) (opacity : ℤ) (color : String)
    (wx wy wrows wcols wxs wys wangle : ℤ) (wwidth wheight : Option ℤ)
    (hcolor : ∃ v, _hex_to_rgb color = Except.ok v)
    (hcols : wcols = 0 → resolveTileSize wwidth env.textW + wxs ≠ 0)
    (hrows : wrows = 0 → resolveTileSize wheight env.textH + wys ≠ 0) :
    ∃ out, add_visible_watermark env src imgW imgH position opacity color
      wx wy wrows wcols wxs wys wangle wwidth wheight = Except.ok out := by
  rcases hcolor with ⟨⟨r, g, b⟩, hc⟩
  have hcolsE : ∃ nc, autoCountE wcols (imgW - wx)
      (resolveTileSize wwidth env.textW + wxs) = Except.ok nc := by
    unfold autoCountE
    by_cases h0 : wcols = 0
    · rw [if_pos h0, if_neg (hcols h0)]
      exact ⟨_, rfl⟩
    · rw [if_neg h0]
      exact ⟨_, rfl⟩
  have hrowsE : ∃ nr, autoCountE wrows (imgH - wy)
      (resolveTileSize wheight env.textH + wys) = Except.ok nr := by
    unfold autoCountE
    by_cases h0 : wrows = 0
    · rw [if_pos h0, if_neg (hrows h0)]
      exact ⟨_, rfl⟩
    · rw [if_neg h0]
      exact ⟨_, rfl⟩
  rcases hcolsE with ⟨nc, hnc⟩
  rcases hrowsE with ⟨nr, hnr⟩
  unfold add_visible_watermark
  rw [hc]
  simp only [except_bind_ok]
  by_cases hmode : singleAnchorMode position = true
  · rw [if_pos hmode]
    simp only [except_pure_eq, except_bind_ok]
    exact ⟨_, rfl⟩
  · rw [if_neg hmode, hnc]
    simp only [except_bind_ok]
    rw [hnr]
    simp only [except_bind_ok, except_pure_eq]
    exact ⟨_, rfl⟩

/-- C2 witness: a grid layout with negative origin and negative spacing (and
auto-derived counts) is processed successfully. -/
theorem C2_no_layout_validation_witness :
    ∃ out, add_visible_watermark trivialEnv (fun _ _ => Pixel.transparent) 100 100
      "grid" 50 "00ff00" (-1) (-1) 0 0 (-2) (-2) 0 none none = Except.ok out :=
  C2_no_layout_validation trivialEnv (fun _ _ => Pixel.transparent) 100 100
    "grid" 50 "00ff00" (-1) (-1) 0 0 (-2) (-2) 0 none none
    ⟨(0, 255, 0), rfl⟩ (fun _ => by decide) (fun _ => by decide)

/-- Direct drawing with an alpha-0 fill keeps every layer alpha at 0. -/
theorem drawText_alpha_zero {layer : Grid} {cov : ℤ → ℤ → Bool} {x y : ℤ}
    {c : Pixel} (hl : ∀ i j, (layer i j).a = 0) (hc : c.a = 0) :
    ∀ i j, ((drawText layer cov x y c) i j).a = 0 := by
  intro i j
  unfold drawText
  split
  · exact hc
  · exact hl i j

/-- The stamp renderer with an alpha-0 fill keeps every layer alpha at 0,
for any sound rotation primitive. -/
theorem drawWatermarkText_alpha_zero {env : RenderEnv} (hrot : RotSound env)
    {layer : Grid} {x y : ℤ} {c : Pixel} {angle : ℤ} {tw th : ℕ}
    (hl : ∀ i j, (layer i j).a = 0) (hc : c.a = 0) :
    ∀ i j, ((drawWatermarkText env layer x y c angle tw th) i j).a = 0 := by
  intro i j
  simp only [drawWatermarkText]
  split
  · exact drawText_alpha_zero hl hc i j
  · have htemp : ∀ k l, ((drawText (fun _ _ => Pixel.transparent) env.cov
        (((tempSize tw th : ℤ) - (tw : ℤ)).fdiv 2)
        (((tempSize tw th : ℤ) - (th : ℤ)).fdiv 2) c) k l).a = 0 :=
      drawText_alpha_zero (fun _ _ => rfl) hc
    have hrotated : ∀ k l, ((env.rot (-angle)
        (((tempSize tw th : ℤ)).fdiv 2, ((tempSize tw th : ℤ)).fdiv 2)
        (drawText (fun _ _ => Pixel.transparent) env.cov
          (((tempSize tw th : ℤ) - (tw : ℤ)).fdiv 2)
          (((tempSize tw th : ℤ) - (th : ℤ)).fdiv 2) c)) k l).a = 0 := by
      intro k l
      rcases hrot (-angle) _ _ k l with hz | ⟨k2, l2, hk⟩
      · rw [hz]
        rfl
      · rw [hk]
        exact htemp k2 l2
    simp only [pasteMasked]
    split
    · rw [if_pos (hrotated _ _)]
      exact hl i j
    · exact hl i j

/-- The grid loop with an alpha-0 fill keeps every layer alpha at 0. -/
theorem drawGrid_alpha_zero {env : RenderEnv} (hrot : RotSound env)
    {imgW imgH wx wy wmW wmH wxs wys : ℤ} {rows cols : ℕ} {c : Pixel}
    {angle : ℤ} (hc : c.a = 0) :
    ∀ (layer : Grid), (∀ i j, (layer i j).a = 0) →
      ∀ i j, ((drawGrid env layer imgW imgH wx wy wmW wmH wxs wys
        rows cols c angle) i j).a = 0 := by
  unfold drawGrid
  generalize gridCells rows cols = cells
  induction cells with
  | nil =>
    intro layer hl
    exact hl
  | cons rc rest ih =>
    intro layer hl i j
    simp only [List.foldl_cons]
    apply ih
    intro k l
    by_cases hfit : tileFits imgW imgH wx wy wmW wmH wxs wys rc.1 rc.2 = true
    · rw [if_pos hfit]
      unfold drawTileStamp
      exact drawWatermarkText_alpha_zero hrot hl hc k l
    · rw [if_neg hfit]
      exact hl k l

/-- Compositing a fully transparent top pixel leaves the bottom pixel
unchanged. -/
theorem compositePixel_alpha_zero {bot top : Pixel} (h : top.a = 0) :
    compositePixel bot top = bot := by
  have h255 : (255 : ℤ) ≠ 0 := by decide
  unfold compositePixel
  rw [h]
  cases bot with
  | mk r g b a =>
    simp [Int.mul_fdiv_cancel _ h255]

/-- When the watermark layer is everywhere alpha 0, the flattened composite
equals the source's colour channels pixel for pixel. -/
theorem out_eq_src_of_layer_alpha_zero {src L : Grid} {out : ℤ → ℤ → ℤ × ℤ × ℤ}
    (hL : ∀ i j, (L i j).a = 0)
    (hok : Except.ok (ε := String) (fun i j => rgbOf (alphaComposite src L i j))
      = Except.ok out) :
    ∀ i j, out i j = rgbOf (src i j) := by
  have hf := Except.ok.inj hok
  intro i j
  rw [← hf]
  show rgbOf (alphaComposite src L i j) = rgbOf (src i j)
  unfold alphaComposite
  rw [compositePixel_alpha_zero (hL i j)]

/-- C8: with opacity 0, whenever the watermarking operation succeeds its
output equals the source image pixel for pixel — the fully transparent layer
leaves the source canvas unchanged, for any sound rotation primitive. -/
theorem C8_opacity_zero (env : RenderEnv) (hrot : RotSound env) (src : Grid)
    (imgW imgH : ℤ) (position : String) (color : String)
    (wx wy wrows wcols wxs wys wangle : ℤ) (wwidth wheight : Option ℤ)
    (out : ℤ → ℤ → ℤ × ℤ × ℤ)
    (hok : add_visible_watermark env src imgW imgH position 0 color
      wx wy wrows wcols wxs wys wangle wwidth wheight = Except.ok out) :
    ∀ i j, out i j = rgbOf (src i j) := by
  unfold add_visible_watermark at hok
  cases hcol : _hex_to_rgb color with
  | error e =>
    rw [hcol] at hok
    exact absurd hok (by simp [except_bind_error])
  | ok rgbv =>
    rw [hcol] at hok
    simp only [except_bind_ok] at hok
    have hca : (Pixel.mk rgbv.1 rgbv.2.1 rgbv.2.2 (alphaOf 0)).a = 0 := rfl
    by_cases hmode : singleAnchorMode position = true
    · rw [if_pos hmode] at hok
      simp only [except_pure_eq, except_bind_ok] at hok
      exact out_eq_src_of_layer_alpha_zero
        (drawWatermarkText_alpha_zero hrot (fun _ _ => rfl) hca) hok
    · rw [if_neg hmode] at hok
      cases hcolsE : autoCountE wcols (imgW - wx)
          (resolveTileSize wwidth env.textW + wxs) with
      | error e =>
        rw [hcolsE] at hok
        exact absurd hok (by simp [except_bind_error])
      | ok nc =>
        rw [hcolsE] at hok
        simp only [except_bind_ok] at hok
        cases hrowsE : autoCountE wrows (imgH - wy)
            (resolveTileSize wheight env.textH + wys) with
        | error e =>
          rw [hrowsE] at hok
          exact absurd hok (by simp [except_bind_error])
        | ok nr =>
          rw [hrowsE] at hok
          simp only [except_bind_ok, except_pure_eq] at hok
          exact out_eq_src_of_layer_alpha_zero
            (drawGrid_alpha_zero hrot hca _ (fun _ _ => rfl)) hok

/-- C8 witness: a concrete opacity-0 grid call over a constant (5, 6, 7)
source returns that source unchanged at the probed pixel. -/
theorem C8_opacity_zero_witness :
    ∃ out, (add_visible_watermark trivialEnv (fun _ _ => Pixel.mk 5 6 7 255) 50 50
        "grid" 0 "ff0000" 20 20 1 1 50 50 0 none none = Except.ok out) ∧
      out 0 0 = (5, 6, 7) := by
  have hsound : RotSound trivialEnv := fun θ ctr g i j => Or.inr ⟨i, j, rfl⟩
  cases hok : add_visible_watermark trivialEnv (fun _ _ => Pixel.mk 5 6 7 255) 50 50
      "grid" 0 "ff0000" 20 20 1 1 50 50 0 none none with
  | error e =>
    have hbool : ((add_visible_watermark trivialEnv (fun _ _ => Pixel.mk 5 6 7 255) 50 50
        "grid" 0 "ff0000" 20 20 1 1 50 50 0 none none).toOption).isSome = true := rfl
    rw [hok] at hbool
    simp [Except.toOption] at hbool
  | ok out =>
    refine ⟨out, rfl, ?_⟩
    have hres := C8_opacity_zero trivialEnv hsound (fun _ _ => Pixel.mk 5 6 7 255)
      50 50 "grid" "ff0000" 20 20 1 1 50 50 0 none none out hok 0 0
    simpa [rgbOf] using hres

end Watermark
